import Mathlib

/-!
Verification of the MCTS dialogue-search engine (src/source/optim/mcts.ts)
against its natural-language specification.

Modelling conventions, used throughout:
* JavaScript numbers are modelled as exact rationals; the value `NaN`
  (reachable through `Number.parseFloat` on non-numeric text and through the
  arithmetic that follows it) is modelled by `Option ℚ` with `none` for NaN.
  `Math.sqrt` and `Math.exp` are transcendental; inside the executable engine
  they appear as uninterpreted function parameters, while the standalone
  real-valued embeddings of the scoring formulas use `Real.sqrt`/`Real.exp`.
* `state.hash()` is `JSON.stringify` of the record
  `{history, query, depth}`; since `JSON.stringify` is injective on this data
  the hash is modelled by the triple itself.
* The class `MCTS` stores its configuration record in the field
  `this.options`, yet `isTerminal` reads `this.maxDepth` and
  `generateActions` reads `this.maxChildren`; neither is a declared property
  of `MCTS`, so TypeScript rejects the access and under plain JavaScript
  semantics the read yields `undefined`.  The value obtained by such a read
  is therefore modelled as `Option ℕ`: `none` for the literal undefined read,
  `some k` for the clearly intended `this.options.maxDepth` /
  `this.options.maxChildren`.  A comparison `x < undefined` or
  `x >= undefined` is false in JavaScript, which the helpers below reproduce.
-/

namespace AcaiMCTS

/-- Lowercase a string character by character, modelling
`String.prototype.toLowerCase` on the ASCII texts used by the engine. -/
def strLower (s : String) : String :=
  String.mk (s.data.map Char.toLower)

/-- Does `hay` start with `needle`? (List form.) -/
def startsWithL : List Char → List Char → Bool
  | _, [] => true
  | [], _ :: _ => false
  | a :: as, b :: bs => a == b && startsWithL as bs

/-- Does `hay` contain `needle` as a contiguous sublist?  Models
`String.prototype.includes` on the underlying character lists. -/
def listHasSub : List Char → List Char → Bool
  | [], needle => needle.isEmpty
  | a :: t, needle => startsWithL (a :: t) needle || listHasSub t needle

/-- String containment, modelling `String.prototype.includes`. -/
def strContains (s sub : String) : Bool :=
  listHasSub s.data sub.data

/-- Split a character list at every occurrence of `sep`, modelling
`String.prototype.split` with a one-character separator (the engine only
splits on `","` and `"\n"`).  `acc` holds the current field reversed. -/
def splitCharGo (sep : Char) : List Char → List Char → List (List Char)
  | acc, [] => [acc.reverse]
  | acc, c :: cs =>
    if c == sep then acc.reverse :: splitCharGo sep [] cs
    else splitCharGo sep (c :: acc) cs

/-- Strip leading and trailing whitespace, modelling
`String.prototype.trim`. -/
def trimL (cs : List Char) : List Char :=
  ((cs.dropWhile Char.isWhitespace).reverse.dropWhile Char.isWhitespace).reverse

/-- JavaScript comparison `d >= m` where `m` was read from a possibly
undefined property: any comparison against `undefined` is false. -/
def jsGeDepth (d : ℕ) : Option ℕ → Bool
  | none => false
  | some m => m ≤ d

/-- Loop iteration count of `for (let i = 0; i < b; i++)` when `b` was read
from a possibly undefined property: `i < undefined` is false, so an
undefined bound runs the loop zero times. -/
def jsBound : Option ℕ → ℕ
  | none => 0
  | some k => k

/-- A JavaScript number that may be NaN (`none`). -/
abbrev JSVal := Option ℚ

/-- NaN-propagating addition. -/
def jsAdd : JSVal → JSVal → JSVal
  | some a, some b => some (a + b)
  | _, _ => none

/-- NaN-propagating multiplication.  (JS `0 * NaN` is NaN, matching the
absorbing `none`.) -/
def jsMul : JSVal → JSVal → JSVal
  | some a, some b => some (a * b)
  | _, _ => none

/-- NaN-propagating subtraction. -/
def jsSub : JSVal → JSVal → JSVal
  | some a, some b => some (a - b)
  | _, _ => none

/-- Division; a zero denominator produces a non-finite JavaScript value
(`Infinity` or `NaN`), both of which are modelled by the absorbing `none`. -/
def jsDiv : JSVal → JSVal → JSVal
  | some a, some b => if b = 0 then none else some (a / b)
  | _, _ => none

/-- JavaScript `>` on numbers: any comparison involving NaN is false. -/
def jsGt : JSVal → JSVal → Bool
  | some a, some b => decide (b < a)
  | _, _ => false

/-- JavaScript falsiness of a number: `undefined`, `NaN` and `0` are falsy.
(`undefined` and NaN are both carried as `none` by the prior map.) -/
def jsFalsy : JSVal → Bool
  | none => true
  | some q => q == 0

/-- Consume a maximal run of decimal digits, returning the accumulated
value, the number of digits consumed and the rest of the input. -/
def digitsGo (acc k : ℕ) : List Char → ℕ × ℕ × List Char
  | [] => (acc, k, [])
  | c :: cs =>
    if c.isDigit then digitsGo (acc * 10 + (c.toNat - 48)) (k + 1) cs
    else (acc, k, c :: cs)

/-- The digits of a decimal literal: sign, integer part, fraction part and
number of fraction digits.  Separated from the rational conversion so that
parsing facts stay decidable by kernel reduction. -/
def parseParts (cs : List Char) : Option (Bool × ℕ × ℕ × ℕ) :=
  let (neg, cs1) :=
    match cs with
    | '-' :: t => (true, t)
    | '+' :: t => (false, t)
    | _ => (false, cs)
  let (ip, ik, cs2) := digitsGo 0 0 cs1
  let (fp, fk) :=
    match cs2 with
    | '.' :: t => let (v, k, _) := digitsGo 0 0 t; (v, k)
    | _ => (0, 0)
  if ik + fk = 0 then none else some (neg, ip, fp, fk)

/-- The rational value of parsed decimal parts. -/
def partsToQ (p : Bool × ℕ × ℕ × ℕ) : ℚ :=
  (if p.1 then (-1 : ℚ) else 1) * ((p.2.1 : ℚ) + (p.2.2.1 : ℚ) / (10 : ℚ) ^ p.2.2.2)

/-- Model of `Number.parseFloat` restricted to plain decimal notation
(optional sign, digits, optional fraction), which covers every numeric form
the engine's prompts elicit; the longest numeric prefix is parsed and
anything non-numeric yields NaN (`none`).  Exponent notation is not needed
by any claim and is not modelled. -/
def parseFloatQ (cs : List Char) : Option ℚ :=
  (parseParts cs).map partsToQ

/-- Clamp into `[0,1]`, modelling `Math.max(0, Math.min(x, 1))`. -/
def clampQ (x : ℚ) : ℚ := max 0 (min x 1)

/-- Message roles used by the engine (`withNewMessage` only ever appends
`"user"` or `"assistant"` messages). -/
inductive Role where
  | user
  | assistant
  deriving DecidableEq

/-- A conversation message (the `CoreMessage` shape used by the engine). -/
structure CoreMessage where
  role : Role
  content : String
  deriving DecidableEq

/-- Per-criterion evaluation scores.  Each field is a JavaScript number that
may be NaN or undefined (both `none`): `evaluate` stores whatever came out
of parsing, clamped or not parsed at all. -/
structure EvaluationMetrics where
  coherence : JSVal
  relevance : JSVal
  engagement : JSVal
  deriving DecidableEq

/-- The conversation snapshot held by every search node.  In the source all
fields are `readonly` except `metrics`, which is a plain mutable field
(`public metrics?: EvaluationMetrics`) reassigned in place by
`MCTS.evaluate`. -/
structure DialogueState where
  systemPrompt : String
  conversationHistory : List CoreMessage
  currentQuery : String
  depth : ℕ
  metrics : Option EvaluationMetrics
  deriving DecidableEq

/-- Model of `DialogueState.withNewMessage`: a fresh state with one message
appended and the depth incremented; every other field is copied. -/
def withNewMessage (s : DialogueState) (role : Role) (content : String) :
    DialogueState :=
  { s with
    conversationHistory := s.conversationHistory ++ [⟨role, content⟩]
    depth := s.depth + 1 }

/-- The data serialized by `DialogueState.hash` (`JSON.stringify` of
history, query and depth; the serialization is injective on this data, so
the triple itself serves as the hash). -/
abbrev StateKey := List CoreMessage × String × ℕ

/-- Model of `DialogueState.hash`. -/
def hashKey (s : DialogueState) : StateKey :=
  (s.conversationHistory, s.currentQuery, s.depth)

/-- Model of `MCTS.isTerminal`.  The depth test reads `this.maxDepth`,
which is not a declared property of `MCTS` (the configured value lives at
`this.options.maxDepth`), so the read is carried as `Option ℕ`; the phrase
tests are on `state.currentQuery`, not on the latest message content. -/
def isTerminal (maxDepthRead : Option ℕ) (s : DialogueState) : Bool :=
  jsGeDepth s.depth maxDepthRead
    || strContains (strLower s.currentQuery) "goodbye"
    || strContains (strLower s.currentQuery) "thank you"

/-! ### Action generation (`MCTS.generateActions`, lines 293-322)

The loop `for (let i = 0; i < this.maxChildren; i++)` issues one
`generateText` call per iteration at `temperature: 0.8 + i * 0.1`; a thrown
oracle error aborts the loop (the remaining calls are never issued, the
texts already collected are discarded) and the `catch` returns `[]`.  The
oracle is modelled as a function from the call index `i` to `Option String`
(`none` = the call throws).  The model returns both the collected texts and
the temperatures of the calls actually issued. -/

/-- Temperature of the i-th generation call: `0.8 + i * 0.1`. -/
def genTemp (i : ℕ) : ℚ := 4 / 5 + (i : ℚ) / 10

/-- The generation loop, started at call index `i` with `rem` iterations
remaining.  First component: `some` of the collected texts, or `none` when
some call threw; second component: the indices of the calls issued (the
i-th call runs at temperature `genTemp i`). -/
def genRun (o : ℕ → Option String) : ℕ → ℕ → Option (List String) × List ℕ
  | _, 0 => (some [], [])
  | i, rem + 1 =>
    match o i with
    | none => (none, [i])
    | some t =>
      let (r, is) := genRun o (i + 1) rem
      (r.map (t :: ·), i :: is)

/-- Model of `MCTS.generateActions`: the loop bound is the read of
`this.maxChildren` (an `Option ℕ`, `none` for the literal undefined read of
the missing property, `some k` for the intended `this.options.maxChildren`).
Returns the completions (`[]` when any call failed) and the indices of the
issued calls. -/
def generateActionsTS (o : ℕ → Option String) (maxChildrenRead : Option ℕ) :
    List String × List ℕ :=
  let (r, is) := genRun o 0 (jsBound maxChildrenRead)
  (r.getD [], is)

/-- The temperatures of the oracle calls issued by a `generateActions`
run. -/
def issuedTemps (o : ℕ → Option String) (maxChildrenRead : Option ℕ) :
    List ℚ :=
  (generateActionsTS o maxChildrenRead).2.map genTemp

/-! ### State evaluation (`MCTS.evaluate`, lines 324-362)

On a thrown oracle error the `catch` returns `0.5`.  On a received text the
code splits on `","`, trims and `parseFloat`s each piece, clamps it with
`Math.max(0, Math.min(x, 1))` (NaN stays NaN since both `Math.min` and
`Math.max` propagate NaN), destructures the first three entries (missing
entries are `undefined`, whose use in arithmetic gives NaN), stores them
into `state.metrics` in place, and returns
`coherence * 0.3 + relevance * 0.4 + engagement * 0.3`, which is NaN when
any criterion failed to parse — parse failures do not reach the `catch` and
are not replaced by `0.5`. -/

/-- The decimal parts of every comma-separated field of an evaluation
reply (the decidable stage of the parse). -/
def fieldParts (text : String) : List (Option (Bool × ℕ × ℕ × ℕ)) :=
  (splitCharGo ',' [] text.data).map (fun f => parseParts (trimL f))

/-- The parsed-and-clamped criterion list of an evaluation reply:
`text.split(",").map(n => Math.max(0, Math.min(parseFloat(n.trim()), 1)))`. -/
def evalFields (text : String) : List JSVal :=
  (fieldParts text).map (fun p => p.map (fun parts => clampQ (partsToQ parts)))

/-- The metrics record assigned by `evaluate` on a received text: the first
three parsed-and-clamped entries (`none` = NaN or, past the end of the
split, `undefined`). -/
def evalMetrics (text : String) : EvaluationMetrics :=
  let fields := evalFields text
  ⟨(fields.get? 0).join, (fields.get? 1).join, (fields.get? 2).join⟩

/-- The number `evaluate` returns: `0.5` when the oracle call threw,
otherwise `coherence * 0.3 + relevance * 0.4 + engagement * 0.3` over the
parsed metrics (NaN when any criterion failed to parse). -/
def evalValue (reply : Option String) : JSVal :=
  match reply with
  | none => some (1 / 2)
  | some text =>
    let m := evalMetrics text
    jsAdd
      (jsAdd (jsMul m.coherence (some (3 / 10))) (jsMul m.relevance (some (4 / 10))))
      (jsMul m.engagement (some (3 / 10)))

/-- Model of `MCTS.evaluate`.  The argument is the oracle reply (`none` =
the call threw).  Returns the value the method returns (`none` = NaN) and
the state after the in-place `state.metrics = {...}` assignment (the
assignment only happens on the non-throwing path). -/
def evaluateCall (reply : Option String) (s : DialogueState) :
    JSVal × DialogueState :=
  (evalValue reply,
    match reply with
    | none => s
    | some text => { s with metrics := some (evalMetrics text) })

/-! ### Action-prior estimation (`MCTS.calculateActionPriors`, lines 380-416)

On a thrown oracle error the `catch` returns the uniform distribution
`1/n` per action.  On a received text the code splits on newlines, parses
each line with `parseFloat`, filters out NaN, and softmax-normalizes the
scores that remain — however many there are: nothing ties their count to
the number of actions, and when no line parses the result is the empty
list, not the uniform fallback. -/

/-- The decimal parts of every line of a priors reply (the decidable stage
of the parse). -/
def lineParts (text : String) : List (Option (Bool × ℕ × ℕ × ℕ)) :=
  (splitCharGo '\n' [] text.data).map (fun line => parseParts (trimL line))

/-- Per-line parsed scores of a priors reply (NaN entries filtered out):
`text.split("\n").map(l => parseFloat(l.trim())).filter(s => !isNaN(s))`. -/
def parseScoresQ (text : String) : List ℚ :=
  (lineParts text).filterMap (fun p => p.map partsToQ)

/-- Plain softmax over real scores, exactly as in the source:
`exp` each score, then divide by the sum. -/
noncomputable def softmaxR (scores : List ℝ) : List ℝ :=
  let expScores := scores.map Real.exp
  let sum := expScores.foldl (· + ·) 0
  expScores.map (fun x => x / sum)

/-- Model of `MCTS.calculateActionPriors` over the reals. `reply` is the
oracle reply (`none` = the call threw); `n` is `actions.length`. -/
noncomputable def calculateActionPriorsR (reply : Option String) (n : ℕ) :
    List ℝ :=
  match reply with
  | none => List.replicate n ((1 : ℝ) / n)
  | some text => softmaxR ((parseScoresQ text).map (fun q : ℚ => (q : ℝ)))

/-! ### Progressive widening (`MCTS.simulate`, lines 263-268)

`numActions = Math.max(1, Math.floor(Math.sqrt(depth + 1)))` and the
widened set is `actions.slice(0, numActions)`.  For the natural numbers
reachable here `Math.floor(Math.sqrt(n))` is exactly `Nat.sqrt n`. -/

/-- The widening bound at rollout depth `d`. -/
def numConsidered (d : ℕ) : ℕ := max 1 (Nat.sqrt (d + 1))

/-- The widened candidate set at rollout depth `d`. -/
def widenedActions (actions : List String) (d : ℕ) : List String :=
  actions.take (numConsidered d)

/-! ### PUCT scoring (`MCTSNode.getPUCTScore`, lines 114-130)

Real-valued embedding of the method body.  Zero denominators produce NaN in
JavaScript (e.g. `beta` on a node with no visits, no RAVE visits and a zero
prior-times-parent term); real division instead gives `0` there.  The
spec's formula has the same denominators in the same places, so the two
sides agree regardless of that convention. -/

/-- Model of `MCTSNode.getPUCTScore` on a node with the given statistics;
`totalParentVisits` and `priorProbability` are the two arguments. -/
noncomputable def getPUCTScore (visits : ℕ) (totalValue : ℝ) (raveVisits : ℕ)
    (raveValue : ℝ) (totalParentVisits : ℕ) (priorProbability : ℝ) : ℝ :=
  let C : ℝ := 1.5
  let exploitation : ℝ := if visits = 0 then 0 else totalValue / visits
  let exploration : ℝ :=
    C * priorProbability * Real.sqrt totalParentVisits / (1 + visits)
  let beta : ℝ :=
    visits / (visits + raveVisits + 4 * priorProbability * totalParentVisits)
  let raveComponent : ℝ := if raveVisits = 0 then 0 else raveValue / raveVisits
  beta * exploitation + (1 - beta) * raveComponent + exploration

/-- The exploitation estimate `Q(c)` as the spec writes it:
`c.totalValue / c.visits`, `0` if unvisited. -/
noncomputable def specQ (visits : ℕ) (totalValue : ℝ) : ℝ :=
  if visits = 0 then 0 else totalValue / visits

/-- The RAVE estimate as the spec writes it: `c.raveValue / c.raveVisits`,
`0` if none. -/
noncomputable def specRAVE (raveVisits : ℕ) (raveValue : ℝ) : ℝ :=
  if raveVisits = 0 then 0 else raveValue / raveVisits

/-- The exploration term as the spec writes it:
`C * prior(c) * sqrt(p.visits) / (1 + c.visits)` with `C = 1.5`. -/
noncomputable def specExplore (visits totalParentVisits : ℕ) (p : ℝ) : ℝ :=
  1.5 * p * Real.sqrt totalParentVisits / (1 + visits)

/-- The mixing weight as the spec writes it:
`c.visits / (c.visits + c.raveVisits + k * prior(c) * p.visits)` with
`k = 4`. -/
noncomputable def specBeta (visits raveVisits totalParentVisits : ℕ)
    (p : ℝ) : ℝ :=
  visits / (visits + raveVisits + 4 * p * totalParentVisits)

/-! ### The search engine (`MCTSNode` and `MCTS`, lines 64-428)

Nodes live in an arena addressed by allocation order (`Eng.next` is the
next free id); the source's object references and `randomUUID` ids are
replaced by these indices.  The transposition table and the prior map are
association lists looked up by first match, which is equivalent to
`Map.get`/`Map.set` because `set` on an existing key is modelled by
prepending the new pair.  The oracle is a function from the running
call counter to `Option String` (`none` = the call throws); token-usage
accounting, which no claim touches, is omitted.  `Math.random`-based
rollout choice is modelled by the parameter `rnd` applied to the call
counter.  The `numSimulations` "parallel" promises of `findBestResponse`
interleave only at oracle `await`s; they are modelled as running to
completion one after another, and the claims settled against the engine
(the all-failing-oracle run, selection and backpropagation) do not depend
on the interleaving.  A `while` loop of the source runs on fuel (`gas`);
exhausting the fuel yields `none`, modelling a run that never returns. -/

/-- Search-tree node (`MCTSNode`), statistics as JavaScript numbers. -/
structure Node where
  state : DialogueState
  parentId : Option ℕ
  action : Option String
  visits : ℕ
  totalValue : JSVal
  raveVisits : ℕ
  raveValue : JSVal
  fullyExpanded : Bool
  children : List ℕ
  deriving DecidableEq

instance : Inhabited Node :=
  ⟨⟨⟨"", [], "", 0, none⟩, none, none, 0, some 0, 0, some 0, false, []⟩⟩

/-- The node arena. -/
abbrev Store := ℕ → Node

/-- Pointwise store update. -/
def updStore (st : Store) (i : ℕ) (f : Node → Node) : Store :=
  fun j => if j = i then f (st j) else st j

/-- Model of `MCTSNode.addVisit` plus, when RAVE is enabled, the
`addRaveData` call that `backpropagate` performs right after it. -/
def addVisitNode (v : JSVal) (useRAVE : Bool) (n : Node) : Node :=
  let n1 := { n with visits := n.visits + 1, totalValue := jsAdd n.totalValue v }
  if useRAVE then
    { n1 with raveVisits := n1.raveVisits + 1, raveValue := jsAdd n1.raveValue v }
  else n1

/-- Model of `MCTS.backpropagate` on the arena: walk the reversed path and
update each listed node once per occurrence in the list. -/
def bpStore (useRAVE : Bool) (path : List ℕ) (v : JSVal) (st : Store) : Store :=
  path.reverse.foldl (fun s i => updStore s i (addVisitNode v useRAVE)) st

/-- Executable mirror of `MCTSNode.getPUCTScore` used inside selection,
with `Math.sqrt` as the uninterpreted parameter `sq` and NaN-aware
arithmetic (the real-valued embedding proved against the spec formula is
`getPUCTScore` above). -/
def scoreE (sq : ℚ → ℚ) (c : Node) (totalParentVisits : ℕ) (p : JSVal) : JSVal :=
  let exploitation : JSVal :=
    if c.visits = 0 then some 0 else jsDiv c.totalValue (some (c.visits : ℚ))
  let exploration : JSVal :=
    jsDiv (jsMul (jsMul (some ((3 : ℚ) / 2)) p) (some (sq (totalParentVisits : ℚ))))
      (some (1 + (c.visits : ℚ)))
  let beta : JSVal :=
    jsDiv (some (c.visits : ℚ))
      (jsAdd (jsAdd (some (c.visits : ℚ)) (some (c.raveVisits : ℚ)))
        (jsMul (jsMul (some (4 : ℚ)) p) (some (totalParentVisits : ℚ))))
  let raveComponent : JSVal :=
    if c.raveVisits = 0 then some 0 else jsDiv c.raveValue (some (c.raveVisits : ℚ))
  jsAdd (jsAdd (jsMul beta exploitation) (jsMul (jsSub (some 1) beta) raveComponent))
    exploration

/-- The prior used during selection:
`this.actionPriors.get(child.action || "") || 1.0 / current.children.length`.
A missing entry, a stored `undefined`, a stored NaN and a stored `0` are
all falsy and fall back to the uniform `1 / len`. -/
def priorFor (priors : List (String × JSVal)) (a : Option String) (len : ℕ) :
    JSVal :=
  let raw : JSVal := (priors.lookup (a.getD "")).join
  if jsFalsy raw then some (1 / (len : ℚ)) else raw

/-- The `children.reduce` of `MCTS.select`: keep the child whose PUCT score
is strictly greater than the incumbent's.  Only called with nonempty
children; `0` on `[]` is dead code. -/
def chooseChild (sq : ℚ → ℚ) (st : Store) (priors : List (String × JSVal))
    (cur : Node) : ℕ :=
  match cur.children with
  | [] => 0
  | c :: cs =>
    let n := cur.visits
    let len := cur.children.length
    cs.foldl
      (fun best child =>
        if jsGt (scoreE sq (st child) n (priorFor priors (st child).action len))
            (scoreE sq (st best) n (priorFor priors (st best).action len))
        then child else best)
      c

/-- Model of the `while` loop of `MCTS.select` on fuel.  Arguments after
the fuel: current node id, path accumulated so far, the `inProgress` set.
Faithful to the source: the loop pushes the current node, breaks (and then
pushes it a second time) when it has no children, skips the descent but
loops again (`continue`) when its hash is already in progress, and
otherwise records the hash and descends to the PUCT-maximal child. -/
def selectGo (mD : Option ℕ) (sq : ℚ → ℚ) (st : Store)
    (priors : List (String × JSVal)) :
    ℕ → ℕ → List ℕ → List StateKey → Option (List ℕ × List StateKey)
  | 0, _, _, _ => none
  | gas + 1, cur, acc, inP =>
    let n := st cur
    if isTerminal mD n.state || !n.fullyExpanded then some (acc ++ [cur], inP)
    else
      let acc1 := acc ++ [cur]
      if n.children.isEmpty then some (acc1 ++ [cur], inP)
      else
        let k := hashKey n.state
        if k ∈ inP then selectGo mD sq st priors gas cur acc1 inP
        else selectGo mD sq st priors gas (chooseChild sq st priors n) acc1
          (k :: inP)

/-- Mutable engine state: the arena, the next free id, the transposition
table, the action-prior map, the shared `inProgress` set and the oracle
call counter. -/
structure Eng where
  store : Store
  next : ℕ
  table : List (StateKey × ℕ)
  priors : List (String × JSVal)
  inProg : List StateKey
  calls : ℕ

/-- Issue one oracle call and advance the call counter. -/
def callO (o : ℕ → Option String) (e : Eng) : Option String × Eng :=
  (o e.calls, { e with calls := e.calls + 1 })

/-- The generation loop of `generateActions` inside the engine: `rem`
iterations remain; a throwing call aborts immediately (later calls are not
issued) and yields `none`. -/
def genGoE (o : ℕ → Option String) : ℕ → Eng → Option (List String) × Eng
  | 0, e => (some [], e)
  | rem + 1, e =>
    let (r, e1) := callO o e
    match r with
    | none => (none, e1)
    | some t =>
      let (rest, e2) := genGoE o rem e1
      (rest.map (t :: ·), e2)

/-- Engine model of `MCTS.generateActions`: loop bound is the read of
`this.maxChildren` (see `jsBound`); the `catch` turns a failed batch into
`[]`. -/
def generateActionsE (o : ℕ → Option String) (mC : Option ℕ) (e : Eng) :
    List String × Eng :=
  let (r, e1) := genGoE o (jsBound mC) e
  (r.getD [], e1)

/-- Engine model of `MCTS.calculateActionPriors` with `Math.exp` as the
uninterpreted parameter `ex` (`Math.exp` is strictly positive, so the
softmax denominator vanishes only when no score parsed, in which case no
division happens; `jsDiv` absorbs the remaining non-finite cases). -/
def calculateActionPriorsE (o : ℕ → Option String) (ex : ℚ → ℚ) (n : ℕ)
    (e : Eng) : List JSVal × Eng :=
  let (r, e1) := callO o e
  match r with
  | none => (List.replicate n (some (1 / (n : ℚ))), e1)
  | some text =>
    let expScores := (parseScoresQ text).map ex
    let sum := expScores.foldl (· + ·) 0
    (expScores.map (fun x => jsDiv (some x) (some sum)), e1)

/-- Engine model of `MCTS.evaluate`; the in-place `state.metrics`
assignment is modelled by `evaluateCall` (the engine claims do not read
metrics back). -/
def evaluateE (o : ℕ → Option String) (e : Eng) : JSVal × Eng :=
  let (r, e1) := callO o e
  (evalValue r, e1)

/-- The per-action body of the expansion loop: build the child state, reuse
the transposition-table node for its hash or allocate a fresh one, append
the child id to the expanding node and record the action's prior
(`priors[i]`, `undefined` past the end of the priors array). -/
def expandLoop (nodeId : ℕ) (baseState : DialogueState) (prs : List JSVal) :
    List String → ℕ → Eng → Eng
  | [], _, e => e
  | a :: rest, i, e =>
    let newState := withNewMessage baseState .assistant a
    let key := hashKey newState
    let (cid, e1) :=
      match e.table.lookup key with
      | some cid => (cid, e)
      | none =>
        let cid := e.next
        (cid,
          { e with
            store := (updStore e.store cid
              (fun _ => ⟨newState, some nodeId, some a, 0, some 0, 0, some 0, false, []⟩))
            next := cid + 1
            table := (key, cid) :: e.table })
    let e2 :=
      { e1 with
        store := (updStore e1.store nodeId
          (fun m => { m with children := m.children ++ [cid] }))
        priors := (a, (prs.get? i).join) :: e1.priors }
    expandLoop nodeId baseState prs rest (i + 1) e2

/-- Model of `MCTS.expand`: terminal nodes are left alone; an empty action
batch marks the node fully expanded with no children; otherwise priors are
computed, every action is materialized as a child and the first child in
the node's children array is returned. -/
def expandE (o : ℕ → Option String) (mD mC : Option ℕ) (ex : ℚ → ℚ)
    (nodeId : ℕ) (e : Eng) : ℕ × Eng :=
  if isTerminal mD (e.store nodeId).state then (nodeId, e)
  else
    let (actions, e1) := generateActionsE o mC e
    if actions.isEmpty then
      (nodeId,
        { e1 with store := (updStore e1.store nodeId
            (fun m => { m with fullyExpanded := true })) })
    else
      let (prs, e2) := calculateActionPriorsE o ex actions.length e1
      let e3 := expandLoop nodeId (e.store nodeId).state prs actions 0 e2
      let e4 :=
        { e3 with store := (updStore e3.store nodeId
            (fun m => { m with fullyExpanded := true })) }
      (((e4.store nodeId).children).headD nodeId, e4)

/-- The rollout loop of `MCTS.simulate`: `rem` encodes
`depth < simulationDepth`; each turn generates actions (breaking on an
empty batch), widens them progressively, picks one pseudo-randomly, appends
it, evaluates the new state and accumulates `value * 0.95 ^ depth`.
Returns the accumulated value, the final depth and the engine. -/
def simGo (o : ℕ → Option String) (mD mC : Option ℕ) (rnd : ℕ → ℕ) :
    DialogueState → ℕ → ℕ → JSVal → Eng → JSVal × ℕ × Eng
  | _, d, 0, acc, e => (acc, d, e)
  | stt, d, rem + 1, acc, e =>
    if isTerminal mD stt then (acc, d, e)
    else
      let (actions, e1) := generateActionsE o mC e
      if actions.isEmpty then (acc, d, e1)
      else
        let sel := widenedActions actions d
        let a := sel.getD (rnd e1.calls % sel.length) ""
        let stt1 := withNewMessage stt .assistant a
        let (v, e2) := evaluateE o e1
        simGo o mD mC rnd stt1 (d + 1) rem
          (jsAdd acc (jsMul v (some ((19 / 20 : ℚ) ^ d)))) e2

/-- Model of `MCTS.simulate`: run the rollout from the node's state and
normalize by `depth || 1`. -/
def simulateE (o : ℕ → Option String) (mD mC : Option ℕ) (rnd : ℕ → ℕ)
    (simDepth : ℕ) (nodeId : ℕ) (e : Eng) : JSVal × Eng :=
  let (acc, d, e1) := simGo o mD mC rnd (e.store nodeId).state 0 simDepth (some 0) e
  (acc.map (fun q => q / (max d 1 : ℚ)), e1)

/-- Model of `MCTS.backpropagate` at the engine level. -/
def backpropagateE (useRAVE : Bool) (path : List ℕ) (v : JSVal) (e : Eng) :
    Eng :=
  { e with store := bpStore useRAVE path v e.store }

/-- Model of `MCTS.select` at the engine level: run the loop on fuel
against the engine's arena, priors and `inProgress` set. -/
def selectE (mD : Option ℕ) (sq : ℚ → ℚ) (gas rootId : ℕ) (e : Eng) :
    Option (List ℕ × Eng) :=
  match selectGo mD sq e.store e.priors gas rootId [] e.inProg with
  | none => none
  | some (path, inP) => some (path, { e with inProg := inP })

/-- Model of `MCTS.getBestAction`: `""` when the root has no children,
otherwise the action of the child with the strictly greatest visit count
(first wins ties), `""` when that action is null or empty. -/
def getBestActionE (e : Eng) (rootId : ℕ) : String :=
  match (e.store rootId).children with
  | [] => ""
  | c :: cs =>
    let best := cs.foldl
      (fun b x => if (e.store x).visits > (e.store b).visits then x else b) c
    ((e.store best).action).getD ""

/-- One simulation of `findBestResponse`: select a path, and unless the
leaf is terminal, expand it, simulate from the expanded node and
backpropagate the value along the selected path. -/
def simStep (o : ℕ → Option String) (mD mC : Option ℕ) (simDepth : ℕ)
    (useRAVE : Bool) (sq ex : ℚ → ℚ) (rnd : ℕ → ℕ) (gas rootId : ℕ)
    (e : Eng) : Option Eng :=
  match selectE mD sq gas rootId e with
  | none => none
  | some (path, e1) =>
    let leaf := path.getLastD rootId
    if isTerminal mD (e1.store leaf).state then some e1
    else
      let (x, e2) := expandE o mD mC ex leaf e1
      let (v, e3) := simulateE o mD mC rnd simDepth x e2
      some (backpropagateE useRAVE path v e3)

/-- Run `n` simulations in sequence (see the interleaving note above). -/
def runSims (o : ℕ → Option String) (mD mC : Option ℕ) (simDepth : ℕ)
    (useRAVE : Bool) (sq ex : ℚ → ℚ) (rnd : ℕ → ℕ) (gas rootId : ℕ) :
    ℕ → Eng → Option Eng
  | 0, e => some e
  | n + 1, e =>
    match simStep o mD mC simDepth useRAVE sq ex rnd gas rootId e with
    | none => none
    | some e1 => runSims o mD mC simDepth useRAVE sq ex rnd gas rootId n e1

/-- The engine state `findBestResponse` starts from: a fresh root node
seeded into the transposition table, an empty `inProgress` set. -/
def initEng (s : DialogueState) : Eng :=
  { store := (updStore (fun _ => default) 0
      (fun _ => ⟨s, none, none, 0, some 0, 0, some 0, false, []⟩))
    next := 1
    table := [(hashKey s, 0)]
    priors := []
    inProg := []
    calls := 0 }

/-- Model of `MCTS.findBestResponse`: run `numSims` simulations from the
fresh root and extract the best action; `none` models a run that never
returns (a `select` loop that spins forever). -/
def findBestResponseE (o : ℕ → Option String) (mD mC : Option ℕ)
    (simDepth numSims : ℕ) (useRAVE : Bool) (sq ex : ℚ → ℚ) (rnd : ℕ → ℕ)
    (gas : ℕ) (s : DialogueState) : Option String :=
  (runSims o mD mC simDepth useRAVE sq ex rnd gas 0 numSims (initEng s)).map
    (fun e => getBestActionE e 0)

/-! ## Claim theorems -/

/-- Helper: concrete floor square roots via the characterization
`a = sqrt n ↔ a * a ≤ n ∧ n < (a + 1) * (a + 1)`. -/
lemma natSqrtValue (n a : ℕ) (h1 : a * a ≤ n) (h2 : n < (a + 1) * (a + 1)) :
    Nat.sqrt n = a :=
  (Nat.eq_sqrt.mpr ⟨h1, h2⟩).symm

/-- Helper: an all-success oracle makes the generation loop collect the
oracle texts of `rem` consecutive call indices. -/
lemma genRun_success (f : ℕ → String) :
    ∀ (rem i : ℕ), genRun (fun j => some (f j)) i rem =
      (some ((List.range' i rem).map f), List.range' i rem) := by
  intro rem
  induction rem with
  | zero => intro i; simp [genRun]
  | succ n ih => intro i; simp [genRun, List.range', ih]

/-- C2 (code_bug evidence): `generateActions` as written reads
`this.maxChildren`, which is not a property of `MCTS` (the configured value
is stored at `this.options.maxChildren`), so the read yields `undefined`,
the loop guard `i < undefined` is false, no oracle call is ever issued and
the returned list is always empty (first conjunct).  Under the clearly
intended bound `some k` the loop issues k calls — the i-th at temperature
`0.8 + i * 0.1` — and returns the k generated texts in order (second,
third and fifth conjuncts; the schedule for k = 3 is 0.8, 0.9, 1.0); a
call that throws aborts the batch, so only the calls before and including
the failing one are issued and the result is `[]` (fourth conjunct). -/
theorem c2_generate_actions_bound_bug :
    (∀ o : ℕ → Option String, generateActionsTS o none = ([], [])) ∧
    (∀ (f : ℕ → String) (k : ℕ),
      generateActionsTS (fun i => some (f i)) (some k) =
        ((List.range k).map f, List.range k)) ∧
    issuedTemps (fun i => some (toString i)) (some 3) = [4 / 5, 9 / 10, 1] ∧
    generateActionsTS (fun i => if i = 1 then none else some "x") (some 3) =
      ([], [0, 1]) ∧
    (∀ i : ℕ, genTemp i = 4 / 5 + (i : ℚ) * (1 / 10)) := by
  refine ⟨fun o => rfl, fun f k => ?_, ?_, by decide, fun i => ?_⟩
  · simp [generateActionsTS, jsBound, genRun_success, List.range_eq_range']
  · have h : (generateActionsTS (fun i => some (toString i)) (some 3)).2 =
        [0, 1, 2] := by decide
    simp only [issuedTemps, h, List.map_cons, List.map_nil, genTemp]
    norm_num
  · simp [genTemp]
    ring

/-- C3 (counterexample): a state whose latest message content is
"goodbye" but whose `currentQuery` contains no closing phrase is not
terminal, although the claim says any state whose latest content contains
"goodbye" is terminal regardless of depth.  `isTerminal` tests
`state.currentQuery`, never the conversation history. -/
theorem c3_counterexample :
    (⟨"", [⟨Role.assistant, "goodbye"⟩], "hello", 0, none⟩ :
        DialogueState).conversationHistory.getLast? =
      some ⟨Role.assistant, "goodbye"⟩ ∧
    isTerminal (some 10)
      ⟨"", [⟨Role.assistant, "goodbye"⟩], "hello", 0, none⟩ = false := by
  constructor
  · rfl
  · decide

/-- C3 (amended): with the intended configured maximum depth `m`,
`isTerminal` is true exactly when the depth has reached `m` or the
lowercased `currentQuery` — not the latest message content — contains
"goodbye" or "thank you". -/
theorem c3_terminal_checks_current_query (m : ℕ) (s : DialogueState) :
    isTerminal (some m) s = true ↔
      (m ≤ s.depth ∨ strContains (strLower s.currentQuery) "goodbye" = true ∨
        strContains (strLower s.currentQuery) "thank you" = true) := by
  simp [isTerminal, jsGeDepth, or_assoc]

/-- C5: `getPUCTScore` computes exactly the spec's PUCT-with-RAVE formula
`beta * Q + (1 - beta) * RAVE + C * prior * sqrt(parentVisits) / (1 +
visits)` with exploration constant `C = 1.5` and RAVE constant `k = 4`,
where `Q` and `RAVE` are the guarded averages and `beta` the visit-based
mixing weight. -/
theorem c5_puct_formula (visits : ℕ) (totalValue : ℝ) (raveVisits : ℕ)
    (raveValue : ℝ) (totalParentVisits : ℕ) (p : ℝ) :
    getPUCTScore visits totalValue raveVisits raveValue totalParentVisits p =
      specBeta visits raveVisits totalParentVisits p * specQ visits totalValue +
        (1 - specBeta visits raveVisits totalParentVisits p) *
          specRAVE raveVisits raveValue +
        specExplore visits totalParentVisits p := by
  rfl

/-- C6 (counterexample): the claim's enumerated widening counts
`1,1,1,1,2,2` for depths 0..5 disagree with its own formula at depth 3,
where `max(1, floor(sqrt(3+1))) = 2`, and the widened set is additionally
capped by the number of generated actions: with a single candidate at
depth 4 only one action is considered although the formula gives 2. -/
theorem c6_counterexample :
    numConsidered 3 = 2 ∧ (widenedActions ["a"] 4).length = 1 ∧
      numConsidered 4 = 2 := by
  have h4 : Nat.sqrt 4 = 2 := natSqrtValue 4 2 (by norm_num) (by norm_num)
  have h5 : Nat.sqrt 5 = 2 := natSqrtValue 5 2 (by norm_num) (by norm_num)
  refine ⟨?_, ?_, ?_⟩
  · simp [numConsidered, h4]
  · simp [widenedActions, numConsidered, h5]
  · simp [numConsidered, h5]

/-- C6 (amended): the widened set at rollout depth `d` holds
`min(max(1, floor(sqrt(d+1))), actions.length)` candidates — exactly
`max(1, floor(sqrt(d+1)))` whenever enough actions were generated — and
the formula's values for depths 0..5 are `1,1,1,2,2,2`. -/
theorem c6_progressive_widening :
    (∀ (actions : List String) (d : ℕ),
      (widenedActions actions d).length = min (numConsidered d) actions.length) ∧
    numConsidered 0 = 1 ∧ numConsidered 1 = 1 ∧ numConsidered 2 = 1 ∧
      numConsidered 3 = 2 ∧ numConsidered 4 = 2 ∧ numConsidered 5 = 2 := by
  have h1 : Nat.sqrt 1 = 1 := natSqrtValue 1 1 (by norm_num) (by norm_num)
  have h2 : Nat.sqrt 2 = 1 := natSqrtValue 2 1 (by norm_num) (by norm_num)
  have h3 : Nat.sqrt 3 = 1 := natSqrtValue 3 1 (by norm_num) (by norm_num)
  have h4 : Nat.sqrt 4 = 2 := natSqrtValue 4 2 (by norm_num) (by norm_num)
  have h5 : Nat.sqrt 5 = 2 := natSqrtValue 5 2 (by norm_num) (by norm_num)
  have h6 : Nat.sqrt 6 = 2 := natSqrtValue 6 2 (by norm_num) (by norm_num)
  refine ⟨fun actions d => ?_, ?_⟩
  · simp [widenedActions, List.length_take]
  · simp [numConsidered, h1, h2, h3, h4, h5, h6]

/-- C7 (counterexample): when the oracle's reply parses to no number at
all, `evaluate` does not return the neutral default `0.5`: the unparsable
criterion is NaN, NaN propagates through the weighted sum, and the method
returns NaN — only a thrown oracle call reaches the `catch` that yields
`0.5`. -/
theorem c7_counterexample :
    evalValue (some "unparsable") = none ∧
      evalValue (some "unparsable") ≠ some (1 / 2) := by
  constructor
  · decide
  · decide

/-- C7 (amended): a thrown oracle call yields the neutral `0.5` and leaves
the state untouched; a received reply has each parsed criterion clamped
into `[0,1]` (for "2.5, -1, 0.9" the stored metrics are `1, 0, 0.9`) and
combined with the fixed weights `0.3 / 0.4 / 0.3` (here `0.57`); clamping
always lands in `[0,1]`.  Parse failures, however, produce NaN rather than
`0.5` (see the counterexample). -/
theorem c7_evaluate_clamps_and_weights :
    (∀ s : DialogueState, evaluateCall none s = (some (1 / 2), s)) ∧
    evalMetrics "2.5, -1, 0.9" = ⟨some 1, some 0, some (9 / 10)⟩ ∧
    evalValue (some "2.5, -1, 0.9") = some (57 / 100) ∧
    (∀ q : ℚ, 0 ≤ clampQ q ∧ clampQ q ≤ 1) := by
  have hm : evalMetrics "2.5, -1, 0.9" = ⟨some 1, some 0, some (9 / 10)⟩ := by
    have h : fieldParts "2.5, -1, 0.9" =
        [some (false, 2, 5, 1), some (true, 1, 0, 0), some (false, 0, 9, 1)] := by
      decide
    simp [evalMetrics, evalFields, h, partsToQ, clampQ]
    norm_num [min_def, max_def]
  refine ⟨fun s => rfl, hm, ?_, fun q => ⟨le_max_left 0 _, ?_⟩⟩
  · simp only [evalValue, hm]
    simp [jsAdd, jsMul]
    norm_num
  · exact max_le (by norm_num) (min_le_right q 1)

/-- Helper: folding addition from an arbitrary seed is the seed plus the
list sum. -/
lemma foldl_add_sum (l : List ℝ) : ∀ a : ℝ, l.foldl (· + ·) a = a + l.sum := by
  induction l with
  | nil => intro a; simp
  | cons x t ih => intro a; simp [ih, add_assoc]

/-- Helper: dividing every element of a list divides its sum. -/
lemma sum_map_div (l : List ℝ) (c : ℝ) :
    (l.map (fun x => x / c)).sum = l.sum / c := by
  induction l with
  | nil => simp
  | cons x t ih => simp [ih, add_div]

/-- C8 (counterexample): for two actions whose rating reply contains no
parsable line, `calculateActionPriors` returns the empty list — not one
probability per action and not the uniform fallback, which is reserved for
a thrown oracle call. -/
theorem c8_counterexample :
    calculateActionPriorsR (some "no numbers here") 2 = [] ∧
      (calculateActionPriorsR (some "no numbers here") 2).length ≠ 2 := by
  have h : lineParts "no numbers here" = [none] := by decide
  constructor
  · simp [calculateActionPriorsR, parseScoresQ, h, softmaxR]
  · simp [calculateActionPriorsR, parseScoresQ, h, softmaxR]

/-- C8 (amended): when the rating reply yields at least one parsed score,
the softmax output has one entry per parsed score (not per action) and
sums to exactly 1; when the oracle call throws, the fallback is the
uniform distribution `1/n` per action, which sums to 1 for n > 0. -/
theorem c8_priors_normalize (text : String) (n : ℕ) :
    (parseScoresQ text ≠ [] →
      (calculateActionPriorsR (some text) n).sum = 1 ∧
        (calculateActionPriorsR (some text) n).length =
          (parseScoresQ text).length) ∧
    (0 < n →
      calculateActionPriorsR none n = List.replicate n ((1 : ℝ) / n) ∧
        (calculateActionPriorsR none n).sum = 1) := by
  have key : ∀ scores : List ℝ, scores ≠ [] →
      (softmaxR scores).sum = 1 ∧ (softmaxR scores).length = scores.length := by
    intro scores hs
    have hmap : scores.map Real.exp ≠ [] := by simpa using hs
    have hpos : 0 < (scores.map Real.exp).sum := by
      refine List.sum_pos _ ?_ hmap
      intro x hx
      rcases List.mem_map.mp hx with ⟨y, _, rfl⟩
      exact Real.exp_pos y
    constructor
    · simp only [softmaxR]
      rw [foldl_add_sum, zero_add, sum_map_div]
      exact div_self (ne_of_gt hpos)
    · simp [softmaxR]
  constructor
  · intro hne
    have hs : (parseScoresQ text).map (fun q => ((q : ℚ) : ℝ)) ≠ [] := by
      simpa using hne
    have hk := key ((parseScoresQ text).map (fun q => ((q : ℚ) : ℝ))) hs
    simp only [calculateActionPriorsR]
    exact ⟨hk.1, hk.2.trans (List.length_map _ _)⟩
  · intro hn
    have hne : ((n : ℝ)) ≠ 0 := Nat.cast_ne_zero.mpr hn.ne'
    refine ⟨rfl, ?_⟩
    simp [calculateActionPriorsR, List.sum_replicate, nsmul_eq_mul]
    field_simp

/-- C8 (witness): the softmax branch at the concrete reply "0.5\n0.7" and
the uniform branch at n = 2 both sum to 1. -/
theorem c8_witness :
    (calculateActionPriorsR (some "0.5\n0.7") 2).sum = 1 ∧
      (calculateActionPriorsR none 2).sum = 1 := by
  have hl : lineParts "0.5\n0.7" =
      [some (false, 0, 5, 1), some (false, 0, 7, 1)] := by decide
  have hne : parseScoresQ "0.5\n0.7" ≠ [] := by
    simp [parseScoresQ, hl]
  exact ⟨((c8_priors_normalize "0.5\n0.7" 2).1 hne).1,
    ((c8_priors_normalize "x" 2).2 (by norm_num)).2⟩

/-- C9 (counterexample): `evaluate` assigns `state.metrics` on the state
object it received — the only non-readonly field of `DialogueState` — so
the state observable after an evaluation differs from the original,
refuting the claim that no engine operation modifies any field of an
existing state. -/
theorem c9_counterexample :
    ((evaluateCall (some "1, 1, 1") ⟨"sys", [], "hello", 0, none⟩).2).metrics ≠
      (⟨"sys", [], "hello", 0, none⟩ : DialogueState).metrics := by
  decide

/-- C9 (amended): every field except `metrics` is readonly and indeed
preserved: `withNewMessage` builds a fresh state that differs from the
original only by the appended message and the incremented depth, and
`evaluate` leaves everything but `metrics` unchanged on the state it
mutates. -/
theorem c9_immutability_except_metrics (s : DialogueState) :
    (∀ (role : Role) (content : String),
      (withNewMessage s role content).systemPrompt = s.systemPrompt ∧
        (withNewMessage s role content).currentQuery = s.currentQuery ∧
        (withNewMessage s role content).metrics = s.metrics ∧
        (withNewMessage s role content).conversationHistory =
          s.conversationHistory ++ [⟨role, content⟩] ∧
        (withNewMessage s role content).depth = s.depth + 1) ∧
    (∀ reply : Option String,
      ((evaluateCall reply s).2).systemPrompt = s.systemPrompt ∧
        ((evaluateCall reply s).2).conversationHistory = s.conversationHistory ∧
        ((evaluateCall reply s).2).currentQuery = s.currentQuery ∧
        ((evaluateCall reply s).2).depth = s.depth) := by
  refine ⟨fun role content => ⟨rfl, rfl, rfl, rfl, rfl⟩, fun reply => ?_⟩
  cases reply <;> simp [evaluateCall]

/-- Helper: a fold of pointwise updates applies the update function once
per occurrence of the index in the list. -/
lemma foldlUpd_apply (f : Node → Node) :
    ∀ (l : List ℕ) (st : Store) (i : ℕ),
      (l.foldl (fun s j => updStore s j f) st) i = f^[l.count i] (st i) := by
  intro l
  induction l with
  | nil => intro st i; simp
  | cons a t ih =>
    intro st i
    simp only [List.foldl_cons, List.count_cons, ih]
    by_cases h : i = a
    · subst h
      simp [updStore, Function.iterate_succ_apply]
    · have h' : a ≠ i := fun hh => h hh.symm
      simp [updStore, h, h']

/-- Helper: iterating `addVisit` (plus the RAVE update when enabled) `k`
times adds `k` visits, folds the value in `k` times, and leaves state,
children and the expansion flag untouched. -/
lemma addVisitNode_iterate (v : JSVal) (u : Bool) :
    ∀ (k : ℕ) (n : Node),
      ((addVisitNode v u)^[k] n).visits = n.visits + k ∧
      ((addVisitNode v u)^[k] n).totalValue =
        (fun x => jsAdd x v)^[k] n.totalValue ∧
      ((addVisitNode v u)^[k] n).raveVisits =
        n.raveVisits + (if u then k else 0) ∧
      ((addVisitNode v u)^[k] n).children = n.children ∧
      ((addVisitNode v u)^[k] n).state = n.state ∧
      ((addVisitNode v u)^[k] n).fullyExpanded = n.fullyExpanded := by
  intro k
  induction k with
  | zero => intro n; simp
  | succ m ih =>
    intro n
    obtain ⟨h1, h2, h3, h4, h5, h6⟩ := ih n
    rw [Function.iterate_succ_apply']
    cases u with
    | false =>
      refine ⟨?_, ?_, ?_, h4, h5, h6⟩
      · show ((addVisitNode v false)^[m] n).visits + 1 = n.visits + (m + 1)
        rw [h1, Nat.add_assoc]
      · show jsAdd (((addVisitNode v false)^[m] n).totalValue) v =
          (fun x => jsAdd x v)^[m + 1] n.totalValue
        rw [h2, Function.iterate_succ_apply']
      · show ((addVisitNode v false)^[m] n).raveVisits =
          n.raveVisits + (if false = true then m + 1 else 0)
        rw [h3]
        simp
    | true =>
      refine ⟨?_, ?_, ?_, h4, h5, h6⟩
      · show ((addVisitNode v true)^[m] n).visits + 1 = n.visits + (m + 1)
        rw [h1, Nat.add_assoc]
      · show jsAdd (((addVisitNode v true)^[m] n).totalValue) v =
          (fun x => jsAdd x v)^[m + 1] n.totalValue
        rw [h2, Function.iterate_succ_apply']
      · show ((addVisitNode v true)^[m] n).raveVisits + 1 =
          n.raveVisits + (if true = true then m + 1 else 0)
        rw [h3, if_pos rfl, if_pos rfl, Nat.add_assoc]

/-- C4 (amended): one `backpropagate(path, value)` call adds one visit and
one value accumulation per occurrence of a node in the path list — so a
node listed once gains exactly one visit, but a node listed twice (which
`select` produces for a fully-expanded childless node) gains two from a
single backpropagation event; RAVE counters behave the same way when
enabled. -/
theorem c4_backprop_per_occurrence (u : Bool) (path : List ℕ) (v : JSVal)
    (st : Store) (i : ℕ) :
    ((bpStore u path v st) i).visits = (st i).visits + path.count i ∧
    ((bpStore u path v st) i).totalValue =
      (fun x => jsAdd x v)^[path.count i] ((st i).totalValue) ∧
    ((bpStore u path v st) i).raveVisits =
      (st i).raveVisits + (if u then path.count i else 0) := by
  unfold bpStore
  rw [foldlUpd_apply, List.count_reverse]
  obtain ⟨h1, h2, h3, _, _, _⟩ := addVisitNode_iterate v u (path.count i) (st i)
  exact ⟨h1, h2, h3⟩

/-- Concrete arena for the C4 counterexample: a single non-terminal,
fully-expanded node with no children (the shape `expand` leaves behind
when action generation failed). -/
def cexStore4 : Store := fun _ =>
  ⟨⟨"", [], "hey", 0, none⟩, none, none, 0, some 0, 0, some 0, true, []⟩

/-- C4 (counterexample): `select` returns the path `[0, 0]` — the same
node twice — for a fully-expanded childless root, and a single
`backpropagate` call over that path gives the node two visits, refuting
"each call contributes exactly one visit to every node of the selected
path" and hence "visits equals the number of backpropagation events". -/
theorem c4_counterexample :
    selectGo (some 10) (fun q => q) cexStore4 [] 1 0 [] [] = some ([0, 0], []) ∧
      (bpStore false [0, 0] (some 1) cexStore4 0).visits = 2 := by
  constructor
  · decide
  · decide

/-- A node at which the selection walk stops: terminal or not yet fully
expanded. -/
def stopNode (mD : Option ℕ) (n : Node) : Prop :=
  isTerminal mD n.state = true ∨ n.fullyExpanded = false

/-- A node through which the selection walk descends: non-terminal, fully
expanded, with children. -/
def contNode (mD : Option ℕ) (n : Node) : Prop :=
  isTerminal mD n.state = false ∧ n.fullyExpanded = true ∧ n.children ≠ []

/-- Helper: a binary-choice fold returns either the seed or a list
element. -/
lemma foldl_choice_mem (g : ℕ → ℕ → Bool) :
    ∀ (l : List ℕ) (a : ℕ),
      l.foldl (fun best c => if g best c then c else best) a ∈ a :: l := by
  intro l
  induction l with
  | nil => intro a; simp
  | cons x t ih =>
    intro a
    simp only [List.foldl_cons]
    have h := ih (if g a x then x else a)
    by_cases hg : g a x <;> simp [hg] at h ⊢ <;> tauto

/-- Helper: the PUCT argmax of `select` picks one of the node's
children. -/
lemma chooseChild_mem (sq : ℚ → ℚ) (st : Store)
    (priors : List (String × JSVal)) (cur : Node)
    (h : cur.children ≠ []) : chooseChild sq st priors cur ∈ cur.children := by
  unfold chooseChild
  cases hc : cur.children with
  | nil => exact absurd hc h
  | cons c cs => exact foldl_choice_mem _ cs c

/-- Helper (core of C10): under bounded depths, depth-increasing children
and an `inProgress` set containing no hash of a non-terminal
fully-expanded node, the selection loop returns within `D` steps, its path
extends the accumulator by a walk that starts at the current node, passes
only through descendable nodes and ends at the first stopping node —
doubled when that node is a fully-expanded childless one. -/
lemma selectGo_descends (mD : Option ℕ) (sq : ℚ → ℚ) (st : Store)
    (priors : List (String × JSVal)) (inP0 : List StateKey) (D : ℕ)
    (hD : ∀ i, (st i).state.depth < D)
    (hinc : ∀ i c, c ∈ (st i).children →
      (st i).state.depth < (st c).state.depth)
    (hip : ∀ i, isTerminal mD (st i).state = false →
      (st i).fullyExpanded = true → hashKey (st i).state ∉ inP0) :
    ∀ (gas cur : ℕ) (acc : List ℕ) (inP : List StateKey),
      D ≤ gas + (st cur).state.depth →
      (∀ k ∈ inP, k ∈ inP0 ∨ k.2.2 < (st cur).state.depth) →
      ∃ tail inP1,
        selectGo mD sq st priors gas cur acc inP = some (acc ++ tail, inP1) ∧
        tail.head? = some cur ∧
        ((∃ base ℓ, tail = base ++ [ℓ] ∧ stopNode mD (st ℓ) ∧
            ∀ q ∈ base, contNode mD (st q)) ∨
         (∃ base ℓ, tail = base ++ [ℓ, ℓ] ∧ isTerminal mD (st ℓ).state = false ∧
            (st ℓ).fullyExpanded = true ∧ (st ℓ).children = [] ∧
            ∀ q ∈ base, contNode mD (st q))) := by
  intro gas
  induction gas with
  | zero =>
    intro cur acc inP hgas _
    exfalso
    have := hD cur
    omega
  | succ g ih =>
    intro cur acc inP hgas hinv
    by_cases hstop : isTerminal mD (st cur).state = true ∨
        (st cur).fullyExpanded = false
    · refine ⟨[cur], inP, ?_, rfl, Or.inl ⟨[], cur, rfl, hstop, by simp⟩⟩
      have hb : (isTerminal mD (st cur).state || !(st cur).fullyExpanded) = true := by
        rcases hstop with h | h <;> simp [h]
      simp [selectGo, hb]
    · have hterm : isTerminal mD (st cur).state = false := by
        cases hIT : isTerminal mD (st cur).state
        · rfl
        · exact absurd (Or.inl hIT) hstop
      have hfe : (st cur).fullyExpanded = true := by
        cases hFE : (st cur).fullyExpanded
        · exact absurd (Or.inr hFE) hstop
        · rfl
      by_cases hch : (st cur).children = []
      · refine ⟨[cur, cur], inP, ?_,  rfl,
          Or.inr ⟨[], cur, rfl, hterm, hfe, hch, by simp⟩⟩
        simp [selectGo, hterm, hfe, hch]
      · have hkey : hashKey (st cur).state ∉ inP := by
          intro hk
          rcases hinv _ hk with h0 | hlt
          · exact hip cur hterm hfe h0
          · exact absurd hlt (lt_irrefl _)
        have hmem : chooseChild sq st priors (st cur) ∈ (st cur).children :=
          chooseChild_mem sq st priors (st cur) hch
        have hdep : (st cur).state.depth <
            (st (chooseChild sq st priors (st cur))).state.depth :=
          hinc cur _ hmem
        have hrec := ih (chooseChild sq st priors (st cur)) (acc ++ [cur])
          (hashKey (st cur).state :: inP) (by omega) ?_
        · obtain ⟨tail, inP1, hsel, hhead, hshape⟩ := hrec
          refine ⟨cur :: tail, inP1, ?_, rfl, ?_⟩
          · have hred :
                selectGo mD sq st priors (g + 1) cur acc inP =
                  selectGo mD sq st priors g (chooseChild sq st priors (st cur))
                    (acc ++ [cur]) (hashKey (st cur).state :: inP) := by
              simp [selectGo, hterm, hfe, hch, hkey]
            rw [hred, hsel]
            simp
          · rcases hshape with ⟨base, l, htail, hstopl, hbase⟩ |
              ⟨base, l, htail, ht1, ht2, ht3, hbase⟩
            · refine Or.inl ⟨cur :: base, l, by simp [htail], hstopl, ?_⟩
              intro q hq
              rcases List.mem_cons.mp hq with rfl | hq
              · exact ⟨hterm, hfe, hch⟩
              · exact hbase q hq
            · refine Or.inr ⟨cur :: base, l, by simp [htail], ht1, ht2, ht3, ?_⟩
              intro q hq
              rcases List.mem_cons.mp hq with rfl | hq
              · exact ⟨hterm, hfe, hch⟩
              · exact hbase q hq
        · intro k hk
          rcases List.mem_cons.mp hk with rfl | hk
          · exact Or.inr hdep
          · rcases hinv k hk with h0 | hlt
            · exact Or.inl h0
            · exact Or.inr (lt_trans hlt hdep)

/-- C10 (amended): for a finite arena with depth-increasing children whose
depths are bounded by `D`, a `select` call whose `inProgress` set contains
no hash of a non-terminal fully-expanded node returns (given fuel at least
`D`) a path that starts at the given node, passes only through
non-terminal fully-expanded nodes with children, and ends at the first
node that is terminal or not fully expanded — or, when the walk reaches a
non-terminal fully-expanded node with no children, ends with that node
listed twice. -/
theorem c10_select_terminates (mD : Option ℕ) (sq : ℚ → ℚ) (st : Store)
    (priors : List (String × JSVal)) (inP0 : List StateKey)
    (D gas start : ℕ)
    (hD : ∀ i, (st i).state.depth < D)
    (hinc : ∀ i c, c ∈ (st i).children →
      (st i).state.depth < (st c).state.depth)
    (hip : ∀ i, isTerminal mD (st i).state = false →
      (st i).fullyExpanded = true → hashKey (st i).state ∉ inP0)
    (hgas : D ≤ gas) :
    ∃ path inP1,
      selectGo mD sq st priors gas start [] inP0 = some (path, inP1) ∧
      path.head? = some start ∧
      ((∃ base l, path = base ++ [l] ∧ stopNode mD (st l) ∧
          ∀ q ∈ base, contNode mD (st q)) ∨
       (∃ base l, path = base ++ [l, l] ∧ isTerminal mD (st l).state = false ∧
          (st l).fullyExpanded = true ∧ (st l).children = [] ∧
          ∀ q ∈ base, contNode mD (st q))) := by
  obtain ⟨tail, inP1, hsel, hhead, hshape⟩ :=
    selectGo_descends mD sq st priors inP0 D hD hinc hip gas start [] inP0
      (by omega) (fun k hk => Or.inl hk)
  exact ⟨tail, inP1, by simpa using hsel, hhead, hshape⟩

/-- Concrete arena for the C10 witness: a single unexpanded node, at which
the selection walk stops immediately. -/
def unexpandedStore : Store := fun _ =>
  ⟨⟨"", [], "anything", 0, none⟩, none, none, 0, some 0, 0, some 0, false, []⟩

/-- C10 (witness): the termination theorem applied to the concrete
one-node arena with depth bound 1 and fuel 1. -/
theorem c10_witness :
    ∃ path inP1,
      selectGo none (fun q => q) unexpandedStore [] 1 0 [] [] =
        some (path, inP1) ∧
      path.head? = some 0 ∧
      ((∃ base l, path = base ++ [l] ∧ stopNode none (unexpandedStore l) ∧
          ∀ q ∈ base, contNode none (unexpandedStore q)) ∨
       (∃ base l, path = base ++ [l, l] ∧
          isTerminal none (unexpandedStore l).state = false ∧
          (unexpandedStore l).fullyExpanded = true ∧
          (unexpandedStore l).children = [] ∧
          ∀ q ∈ base, contNode none (unexpandedStore q))) :=
  c10_select_terminates none (fun q => q) unexpandedStore [] [] 1 1 0
    (fun _ => Nat.one_pos)
    (fun _ c hc => absurd hc (List.not_mem_nil c))
    (by intro i hterm hfe; simp [unexpandedStore] at hfe)
    (le_refl 1)

/-- Concrete arena for the C10 counterexample: a single non-terminal,
fully-expanded node with no children (the pruned dead end `expand` leaves
behind after a failed generation batch). -/
def prunedStore : Store := fun _ =>
  ⟨⟨"", [], "what next", 0, none⟩, none, none, 0, some 0, 0, some 0, true, []⟩

/-- C10 (counterexample): on a pruned dead end satisfying every hypothesis
of the claim, `select` returns the path `[0, 0]`, whose final node is
neither terminal nor not-fully-expanded — the claim's description of where
the path ends is wrong for fully-expanded childless nodes, which are also
listed twice. -/
theorem c10_counterexample :
    selectGo (some 10) (fun q => q) prunedStore [] 1 0 [] [] =
      some ([0, 0], []) ∧
    isTerminal (some 10) (prunedStore 0).state = false ∧
    (prunedStore 0).fullyExpanded = true := by
  refine ⟨by decide, by decide, rfl⟩

/-- Helper: the generation loop never touches the arena (its only effect
is the call counter). -/
lemma genGoE_store (o : ℕ → Option String) :
    ∀ (rem : ℕ) (e : Eng), ((genGoE o rem e).2).store = e.store := by
  intro rem
  induction rem with
  | zero => intro e; rfl
  | succ n ih =>
    intro e
    simp only [genGoE, callO]
    cases o e.calls with
    | none => rfl
    | some t =>
      rcases hg : genGoE o n { e with calls := e.calls + 1 } with ⟨r2, e2⟩
      have hs := ih { e with calls := e.calls + 1 }
      rw [hg] at hs
      simpa [hg] using hs

/-- Helper: with an oracle that always throws, `generateActions` returns
the empty batch. -/
lemma generateActionsE_allFail_fst (mC : Option ℕ) (e : Eng) :
    (generateActionsE (fun _ => none) mC e).1 = [] := by
  unfold generateActionsE
  cases h : jsBound mC with
  | zero => simp [h, genGoE]
  | succ n => simp [h, genGoE, callO]

/-- Helper: `generateActions` never touches the arena. -/
lemma generateActionsE_store (o : ℕ → Option String) (mC : Option ℕ)
    (e : Eng) : ((generateActionsE o mC e).2).store = e.store := by
  unfold generateActionsE
  rcases hg : genGoE o (jsBound mC) e with ⟨r, e1⟩
  have hs := genGoE_store o (jsBound mC) e
  rw [hg] at hs
  simpa [hg] using hs

/-- Helper: backpropagation changes only counters, never children. -/
lemma bpStore_children (u : Bool) (path : List ℕ) (v : JSVal) (st : Store)
    (i : ℕ) : ((bpStore u path v st) i).children = (st i).children := by
  unfold bpStore
  rw [foldlUpd_apply]
  exact (addVisitNode_iterate v u (List.count i path.reverse) (st i)).2.2.2.1

/-- Helper: on a childless arena the selection loop returns on its first
iteration, whatever the flags of the current node. -/
lemma selectGo_noChildren (mD : Option ℕ) (sq : ℚ → ℚ) (st : Store)
    (priors : List (String × JSVal)) (h : ∀ i, (st i).children = [])
    (g cur : ℕ) (acc : List ℕ) (inP : List StateKey) :
    ∃ pr, selectGo mD sq st priors (g + 1) cur acc inP = some pr := by
  cases hb : (isTerminal mD (st cur).state || !(st cur).fullyExpanded) with
  | true => exact ⟨(acc ++ [cur], inP), by simp [selectGo, hb]⟩
  | false => exact ⟨(acc ++ [cur] ++ [cur], inP), by simp [selectGo, hb, h cur]⟩

/-- Helper: with an always-throwing oracle, `expand` leaves every node
childless (it can only mark dead ends fully expanded). -/
lemma expandE_allFail_children (mD mC : Option ℕ) (ex : ℚ → ℚ)
    (nodeId : ℕ) (e : Eng) (h : ∀ i, (e.store i).children = []) :
    ∀ j, (((expandE (fun _ => none) mD mC ex nodeId e).2).store j).children = [] := by
  intro j
  unfold expandE
  cases ht : isTerminal mD (e.store nodeId).state with
  | true => simp [ht, h j]
  | false =>
    rcases hga : generateActionsE (fun _ => none) mC e with ⟨acts, e1⟩
    have hfst : acts = [] := by
      have := generateActionsE_allFail_fst mC e
      rw [hga] at this
      exact this
    have hst : e1.store = e.store := by
      have := generateActionsE_store (fun _ => none) mC e
      rw [hga] at this
      exact this
    subst hfst
    by_cases hj : j = nodeId <;> simp [ht, hga, updStore, hj, hst, h]

/-- Helper: with an always-throwing oracle, `simulate` breaks out of its
rollout loop immediately and never touches the arena. -/
lemma simulateE_allFail_store (mD mC : Option ℕ) (rnd : ℕ → ℕ)
    (sd x : ℕ) (e : Eng) :
    ((simulateE (fun _ => none) mD mC rnd sd x e).2).store = e.store := by
  have key : ∀ (stt : DialogueState) (d rem : ℕ) (acc : JSVal) (e1 : Eng),
      (((simGo (fun _ => none) mD mC rnd stt d rem acc e1).2).2).store =
        e1.store := by
    intro stt d rem acc e1
    cases rem with
    | zero => rfl
    | succ m =>
      cases ht : isTerminal mD stt with
      | true => simp [simGo, ht]
      | false =>
        rcases hga : generateActionsE (fun _ => none) mC e1 with ⟨acts, e2⟩
        have hfst : acts = [] := by
          have := generateActionsE_allFail_fst mC e1
          rw [hga] at this
          exact this
        have hst : e2.store = e1.store := by
          have := generateActionsE_store (fun _ => none) mC e1
          rw [hga] at this
          exact this
        subst hfst
        simp [simGo, ht, hga, hst]
  unfold simulateE
  rcases hs : simGo (fun _ => none) mD mC rnd (e.store x).state 0 sd (some 0) e
    with ⟨acc, d, e1⟩
  have := key (e.store x).state 0 sd (some 0) e
  rw [hs] at this
  simpa [hs] using this

/-- Helper: with an always-throwing oracle one whole simulation succeeds
(no fuel is ever consumed by descent) and keeps the arena childless. -/
lemma simStep_allFail (mD mC : Option ℕ) (sd : ℕ) (u : Bool)
    (sq ex : ℚ → ℚ) (rnd : ℕ → ℕ) (g rootId : ℕ) (e : Eng)
    (h : ∀ i, (e.store i).children = []) :
    ∃ e', simStep (fun _ => none) mD mC sd u sq ex rnd (g + 1) rootId e =
        some e' ∧ ∀ i, (e'.store i).children = [] := by
  obtain ⟨⟨path, inP⟩, hsel⟩ :=
    selectGo_noChildren mD sq e.store e.priors h g rootId [] e.inProg
  have hsel' : selectE mD sq (g + 1) rootId e =
      some (path, { e with inProg := inP }) := by
    simp [selectE, hsel]
  have hch1 : ∀ i,
      ((({ e with inProg := inP } : Eng).store) i).children = [] := h
  have hsome :
      (simStep (fun _ => none) mD mC sd u sq ex rnd (g + 1) rootId e).isSome := by
    simp only [simStep, hsel']
    split <;> simp
  obtain ⟨e', he'⟩ := Option.isSome_iff_exists.mp hsome
  refine ⟨e', he', ?_⟩
  intro i
  simp only [simStep, hsel'] at he'
  revert he'
  split
  · intro he'
    injection he' with hh
    subst hh
    exact h i
  · intro he'
    injection he' with hh
    subst hh
    simp only [backpropagateE]
    rw [bpStore_children, simulateE_allFail_store]
    exact expandE_allFail_children _ _ _ _ _ hch1 i

/-- Helper: with an always-throwing oracle every simulation of the run
keeps the arena childless. -/
lemma runSims_allFail (mD mC : Option ℕ) (sd : ℕ) (u : Bool)
    (sq ex : ℚ → ℚ) (rnd : ℕ → ℕ) (g rootId : ℕ) :
    ∀ (n : ℕ) (e : Eng), (∀ i, (e.store i).children = []) →
      ∃ e', runSims (fun _ => none) mD mC sd u sq ex rnd (g + 1) rootId n e =
          some e' ∧ ∀ i, (e'.store i).children = [] := by
  intro n
  induction n with
  | zero => intro e h; exact ⟨e, rfl, h⟩
  | succ m ih =>
    intro e h
    obtain ⟨e1, hstep, h1⟩ :=
      simStep_allFail mD mC sd u sq ex rnd g rootId e h
    obtain ⟨e', hrun, h'⟩ := ih e1 h1
    exact ⟨e', by simp [runSims, hstep, hrun], h'⟩

/-- C1 (amended): when every oracle call fails for the entire run,
`findBestResponse` does not surface any failure — every throw is swallowed
inside `generateActions` (and would be inside `evaluate` and
`calculateActionPriors`), every expansion is pruned to a childless dead
end, and the run completes normally returning the empty string that
`getBestAction` produces for a childless root.  This holds for every
configuration, including both the literal undefined reads of
`this.maxDepth` / `this.maxChildren` (`none`) and the intended configured
values (`some _`). -/
theorem c1_all_fail_returns_empty (mD mC : Option ℕ) (sd n : ℕ) (u : Bool)
    (sq ex : ℚ → ℚ) (rnd : ℕ → ℕ) (gas : ℕ) (s : DialogueState)
    (hgas : 1 ≤ gas) :
    findBestResponseE (fun _ => none) mD mC sd n u sq ex rnd gas s =
      some "" := by
  obtain ⟨g, rfl⟩ : ∃ g, gas = g + 1 := ⟨gas - 1, by omega⟩
  have hinit : ∀ i, (((initEng s).store i).children) = [] := by
    intro i
    simp only [initEng, updStore]
    split <;> rfl
  obtain ⟨e', hrun, hch⟩ :=
    runSims_allFail mD mC sd u sq ex rnd g 0 n (initEng s) hinit
  unfold findBestResponseE
  rw [hrun]
  simp [getBestActionE, hch 0]

/-- C1 (witness): the amended theorem applied at a concrete
configuration. -/
theorem c1_witness :
    1 ≤ 1 ∧ findBestResponseE (fun _ => none) none none 1 1 false
      (fun q => q) (fun q => q) (fun _ => 0) 1 ⟨"sys", [], "hi", 0, none⟩ =
        some "" :=
  ⟨le_refl 1, c1_all_fail_returns_empty none none 1 1 false (fun q => q)
    (fun q => q) (fun _ => 0) 1 ⟨"sys", [], "hi", 0, none⟩ (le_refl 1)⟩

/-- C1 (counterexample): a fully concrete run — two simulations, the
intended configuration `maxDepth = 10`, `maxChildren = 3`, an oracle that
throws on every call — completes normally with the empty string instead of
propagating the failure to the caller: the claim that the search surfaces
total oracle unreachability is false. -/
theorem c1_counterexample :
    findBestResponseE (fun _ => none) (some 10) (some 3) 5 2 true
      (fun q => q) (fun q => q) (fun _ => 0) 3
      ⟨"", [], "hello", 0, none⟩ = some "" := by
  decide

end AcaiMCTS
